import Mathlib

/-!
Shallow embedding of the `watcher` Go package (template caching with
live reload).  The authoritative source is the current revision of
`watcher.go` (the documented version with `DelimLeft`/`DelimRight`,
`parseGlob`, `getBaseChangeTime` and `Get` returning `t.Clone()`).

Modelling choices:
* a Go timestamp is modelled as `Nat` (nanoseconds); the zero value is `0`,
  `a.Before b` is `a < b`, `a.After b` is `b < a`, `Add time.Nanosecond`
  is `+ 1`.
* Go `interface{}` cache keys compare by dynamic type and value, so keys
  are an inductive type with one constructor per representative dynamic
  type; the package-private `cacheKey` type gets its own constructor and
  `baseKey` is `cacheKey 0`.
* A template bundle (`*template.Template` with its set of named
  sub-templates) is an association list from sub-template name to parse
  tree; `AddParseTree` replaces the binding with the same name or
  appends a new one.
* The filesystem and the external template engine are an environment:
  `fs` maps a path to its modification time (`none` = stat error),
  `parse` maps a file list to the engine's bundle (`none` = parse
  error), `glob` maps a pattern to its matches (`none` = bad pattern).
* The mutation loop serializes writes; a `get` lookup task runs to
  completion and the `setChan` submission it makes is applied, so the
  model threads an explicit state `St` (cache plus a monotone clock
  standing for `time.Now()`, bumped whenever the code reads the clock).
* `WErr.crashed` marks a Go runtime panic (such as the unguarded
  `filenames[0]` index in `parseFiles`), which is not an error value in
  Go; it is distinguished from every genuine error constructor.
-/

namespace Watcher

abbrev Tree := String

/-- A bundle: the named sub-templates of one `*template.Template`. -/
abbrev Bundle := List (String × Tree)

/-- A Go `interface{}` cache key: dynamic type together with value.
`cacheKey` is the package-private type of the reserved base slot;
`ofInt`/`ofString`/`testKey` stand for the dynamic types a caller of the
public API can construct (`int`, `string`, the test file's `type key int`). -/
inductive GoKey where
  | ofInt : Int → GoKey
  | ofString : String → GoKey
  | testKey : Int → GoKey
  | cacheKey : Int → GoKey
deriving DecidableEq

/-- `const baseKey cacheKey = 0`. -/
def baseKey : GoKey := GoKey.cacheKey 0

/-- A key whose dynamic type is constructible outside the package
(the `cacheKey` type is package-private). -/
def GoKey.external : GoKey → Bool
  | GoKey.cacheKey _ => false
  | _ => true

/-- The `watched` struct: one cache entry. -/
structure Watched where
  filenames : List String
  tmpl : Bundle
  cached : Nat
deriving DecidableEq

/-- The `cache` map, `map[interface{}]*watched`. -/
abbrev Cache := List (GoKey × Watched)

/-- Map lookup on the cache. -/
def cacheFind : Cache → GoKey → Option Watched
  | [], _ => none
  | (k', w) :: rest, k => if k' = k then some w else cacheFind rest k

/-- Map update on the cache: `set` / `cache[key] = w`. -/
def cacheSet : Cache → GoKey → Watched → Cache
  | [], k, w => [(k, w)]
  | (k', w') :: rest, k, w =>
    if k' = k then (k, w) :: rest else (k', w') :: cacheSet rest k w

/-- External collaborators: filesystem stat, template engine, glob matcher. -/
structure Env where
  fs : String → Option Nat
  parse : List String → Option Bundle
  glob : String → Option (List String)

/-- Mutable package state: the cache plus the current clock. -/
structure St where
  cache : Cache
  now : Nat
deriving DecidableEq

/-- Advance the clock past a `time.Now()` read. -/
def St.adv (s : St) : St := { s with now := s.now + 1 }

/-- The loop body of `getChangeTime`: fold the running maximum `changed`
over the filenames, skipping a failed `os.Stat` (the `continue` branch). -/
def getChangeTimeAux (fs : String → Option Nat) : Nat → List String → Nat
  | changed, [] => changed
  | changed, f :: rest =>
    match fs f with
    | none => getChangeTimeAux fs changed rest
    | some m => getChangeTimeAux fs (if changed < m then m else changed) rest

/-- `getChangeTime(filenames...)`: latest modification time, starting from
the zero timestamp. -/
def getChangeTime (fs : String → Option Nat) (filenames : List String) : Nat :=
  getChangeTimeAux fs 0 filenames

/-- `getBaseChangeTime()`: zero if no base entry; otherwise the base's
files' change time, nudged to `cached + 1ns` when `cached` is strictly
after that change time. -/
def getBaseChangeTime (fs : String → Option Nat) (c : Cache) : Nat :=
  match cacheFind c baseKey with
  | none => 0
  | some w =>
    let changed := getChangeTime fs w.filenames
    if changed < w.cached then w.cached + 1 else changed

/-- Failure outcomes of the package.  `crashed` stands for a Go runtime
panic (process abort), not an error value. -/
inductive WErr where
  | noMatch
  | badPattern
  | engineErr
  | notFound
  | crashed
deriving DecidableEq

/-- `AddParseTree(name, tree)`: bind `n` to `t`, replacing an existing
binding with the same name. -/
def addTree : Bundle → String → Tree → Bundle
  | [], n, t => [(n, t)]
  | (m, u) :: b, n, t => if m = n then (n, t) :: b else (m, u) :: addTree b n t

/-- `Lookup(name)` on a bundle: the binding of the named sub-template. -/
def lookupTmpl : Bundle → String → Option Tree
  | [], _ => none
  | (m, u) :: b, n => if m = n then some u else lookupTmpl b n

/-- `mergeTemplate(base, t)`: clone `base` and `AddParseTree` every named
sub-template of `t` into the clone (cloning is value copying here). -/
def mergeTemplate (base t : Bundle) : Bundle :=
  t.foldl (fun acc p => addTree acc p.1 p.2) base

/-- `parseBaseFiles(filenames...)`: `template.New(filenames[0])` panics on
an empty list (`crashed`); then the engine parses the files and the entry
is stamped with `time.Now()`. -/
def parseBaseFilesM (e : Env) (s : St) (fns : List String) :
    Except WErr Watched × St :=
  if fns = [] then (Except.error WErr.crashed, s)
  else
    match e.parse fns with
    | none => (Except.error WErr.engineErr, s)
    | some t => (Except.ok ⟨fns, t, s.now⟩, s.adv)

/-- The lookup task `get` specialized to the base key, as reached through
`Get(baseKey)` from inside `parseFiles`: look the base up, reparse it via
`parseBaseFiles` when its own files are newer, reply with the bundle. -/
def getBaseTask (e : Env) (s : St) : Option Bundle × St :=
  match cacheFind s.cache baseKey with
  | none => (none, s)
  | some w =>
    if w.cached < getChangeTime e.fs w.filenames then
      match parseBaseFilesM e s w.filenames with
      | (Except.ok w2, s1) => (some w2.tmpl, ⟨cacheSet s1.cache baseKey w2, s1.now⟩)
      | (Except.error _, s1) => (none, s1)
    else (some w.tmpl, s)

/-- `parseFiles(filenames...)`: `template.New(filenames[0])` panics on an
empty list; the engine parses the files; if `Get(baseKey)` succeeds the
parsed bundle is merged into the base, and the entry is stamped with
`time.Now()`. -/
def parseFilesM (e : Env) (s : St) (fns : List String) :
    Except WErr Watched × St :=
  if fns = [] then (Except.error WErr.crashed, s)
  else
    match e.parse fns with
    | none => (Except.error WErr.engineErr, s)
    | some t =>
      match getBaseTask e s with
      | (some base, s1) => (Except.ok ⟨fns, mergeTemplate base t, s1.now⟩, s1.adv)
      | (none, s1) => (Except.ok ⟨fns, t, s1.now⟩, s1.adv)

/-- The staleness condition of the lookup task: own files newer than the
entry, or — for a non-base key only — the base change time newer. -/
abbrev stale (e : Env) (s : St) (k : GoKey) (w : Watched) : Prop :=
  w.cached < getChangeTime e.fs w.filenames ∨
    (k ≠ baseKey ∧ w.cached < getBaseChangeTime e.fs s.cache)

/-- The lookup task `get(key, c)`: absent key closes the channel; a stale
entry is reparsed (base entries via `parseBaseFiles`, others via
`parseFiles`), a reparse error is logged and the channel closed, a
successful reparse is submitted as a Set and the new bundle replied. -/
def getTask (e : Env) (s : St) (k : GoKey) : Option Bundle × St :=
  match cacheFind s.cache k with
  | none => (none, s)
  | some w =>
    if stale e s k w then
      match (if k = baseKey then parseBaseFilesM e s w.filenames
             else parseFilesM e s w.filenames) with
      | (Except.error _, s1) => (none, s1)
      | (Except.ok w2, s1) => (some w2.tmpl, ⟨cacheSet s1.cache k w2, s1.now⟩)
    else (some w.tmpl, s)

/-- Public `Get(key)`: a closed channel becomes `NotFoundError`; a bundle
is returned as `t.Clone()` (a value copy here). -/
def GetM (e : Env) (s : St) (k : GoKey) : Except WErr Bundle × St :=
  match getTask e s k with
  | (none, s1) => (Except.error WErr.notFound, s1)
  | (some t, s1) => (Except.ok t, s1)

/-- Public `RegisterFiles(key, filenames...)`: parse, then submit a Set. -/
def registerFilesM (e : Env) (s : St) (k : GoKey) (fns : List String) :
    Except WErr Unit × St :=
  match parseFilesM e s fns with
  | (Except.error er, s1) => (Except.error er, s1)
  | (Except.ok w, s1) => (Except.ok (), ⟨cacheSet s1.cache k w, s1.now⟩)

/-- Public `RegisterBaseFiles(filenames...)`: parse, then Set at `baseKey`. -/
def registerBaseFilesM (e : Env) (s : St) (fns : List String) :
    Except WErr Unit × St :=
  match parseBaseFilesM e s fns with
  | (Except.error er, s1) => (Except.error er, s1)
  | (Except.ok w, s1) => (Except.ok (), ⟨cacheSet s1.cache baseKey w, s1.now⟩)

/-- `parseGlob(pattern)`: a glob error propagates; zero matches is the
`NoMatchError` `"watcher: pattern matches no files"`. -/
def parseGlobM (e : Env) (pattern : String) : Except WErr (List String) :=
  match e.glob pattern with
  | none => Except.error WErr.badPattern
  | some [] => Except.error WErr.noMatch
  | some fns => Except.ok fns

/-- Public `RegisterGlob(key, pattern)`: expand then delegate. -/
def registerGlobM (e : Env) (s : St) (k : GoKey) (pattern : String) :
    Except WErr Unit × St :=
  match parseGlobM e pattern with
  | Except.error er => (Except.error er, s)
  | Except.ok fns => registerFilesM e s k fns

/-! Pointer-level micro-model of the `Get` copy boundary.  Templates are
heap objects; the cache entry holds an address, `Clone` allocates a fresh
address with a copy of the value, and caller mutation is a heap write at
the returned address. -/

/-- Read a template object at an address. -/
def memRead : List (Nat × Bundle) → Nat → Option Bundle
  | [], _ => none
  | (a', b) :: rest, a => if a' = a then some b else memRead rest a

/-- Mutate the template object at an address (the caller writing through
the handle `Get` returned). -/
def memWrite : List (Nat × Bundle) → Nat → Bundle → List (Nat × Bundle)
  | [], a, b => [(a, b)]
  | (a', b') :: rest, a, b =>
    if a' = a then (a, b) :: rest else (a', b') :: memWrite rest a b

/-- A heap of template objects with a fresh-address counter. -/
structure Heap where
  store : List (Nat × Bundle)
  next : Nat

/-- The tail of public `Get`: the lookup task replied with the cached
template's address `ta`; `Get` returns `t.Clone()`, a fresh object that
copies the cached one. -/
def GetClone (h : Heap) (ta : Nat) : Option (Nat × Heap) :=
  match memRead h.store ta with
  | none => none
  | some b => some (h.next, ⟨(h.next, b) :: h.store, h.next + 1⟩)

/-! Concrete fixtures used by witness theorems. -/

/-- A filesystem in which every path was modified at time 5. -/
def fsFive : String → Option Nat := fun _ => some 5

/-- Base entry cached exactly at its files' modification time. -/
def wEq : Watched := ⟨["b"], [], 5⟩

/-- A cache holding only `wEq` as the base entry. -/
def cEq : Cache := [(baseKey, wEq)]

/-- Base entry cached strictly after its files' modification time. -/
def wGt : Watched := ⟨["b"], [], 7⟩

/-- A cache holding only `wGt` as the base entry. -/
def cGt : Cache := [(baseKey, wGt)]

/-- Deterministic environment: two parseable file lists, one glob pattern
with matches and every other pattern matching nothing. -/
def envW : Env where
  fs := fun _ => some 0
  parse := fun fns =>
    if fns = ["b.html"] then some [("b.html", "B")]
    else if fns = ["d.html"] then some [("d.html", "D")]
    else none
  glob := fun p => if p = "*.html" then some ["d.html"] else some []

/-- Environment whose files all changed at time 10 and whose engine
rejects every file list (a syntax error introduced after caching). -/
def envBroken : Env where
  fs := fun _ => some 10
  parse := fun _ => none
  glob := fun _ => some []

/-- A dependent entry cached at time 1 (stale under `envBroken`). -/
def wStale : Watched := ⟨["d.html"], [("d.html", "D")], 1⟩

/-- State holding only `wStale` under the key `ofInt 2`. -/
def sStale : St := ⟨[(GoKey.ofInt 2, wStale)], 20⟩

/-- A fresh entry cached at time 9 under `envW` (nothing is stale). -/
def wFresh : Watched := ⟨["d.html"], [("d.html", "D")], 9⟩

/-- State holding only `wFresh` under the key `ofInt 1`. -/
def sFresh : St := ⟨[(GoKey.ofInt 1, wFresh)], 20⟩

/-- Filesystem where only `"a"` is readable, modified at time 7. -/
def fsAB : String → Option Nat := fun f => if f = "a" then some 7 else none

/-! Helper lemmas. -/

theorem getChangeTimeAux_ge (fs : String → Option Nat) (acc : Nat)
    (fns : List String) : acc ≤ getChangeTimeAux fs acc fns := by
  induction fns generalizing acc with
  | nil => simp [getChangeTimeAux]
  | cons f rest ih =>
    cases hf : fs f with
    | none =>
      simp only [getChangeTimeAux, hf]
      exact ih acc
    | some m =>
      simp only [getChangeTimeAux, hf]
      have h1 : acc ≤ (if acc < m then m else acc) := by split <;> omega
      exact le_trans h1 (ih _)

theorem getChangeTimeAux_le (fs : String → Option Nat) (t acc : Nat)
    (fns : List String) (hacc : acc ≤ t)
    (h : ∀ f, f ∈ fns → ∀ m, fs f = some m → m ≤ t) :
    getChangeTimeAux fs acc fns ≤ t := by
  induction fns generalizing acc with
  | nil => simpa [getChangeTimeAux] using hacc
  | cons f rest ih =>
    cases hf : fs f with
    | none =>
      simp only [getChangeTimeAux, hf]
      exact ih acc hacc fun g hg => h g (List.mem_cons_of_mem f hg)
    | some m =>
      simp only [getChangeTimeAux, hf]
      have hm : m ≤ t := h f (List.mem_cons_self f rest) m hf
      have hacc2 : (if acc < m then m else acc) ≤ t := by split <;> omega
      exact ih _ hacc2 fun g hg => h g (List.mem_cons_of_mem f hg)

theorem getChangeTimeAux_mem_le (fs : String → Option Nat) (acc : Nat)
    (fns : List String) (f : String) (m : Nat) (hf : f ∈ fns)
    (hm : fs f = some m) : m ≤ getChangeTimeAux fs acc fns := by
  induction fns generalizing acc with
  | nil => cases hf
  | cons g rest ih =>
    rcases List.mem_cons.mp hf with hfg | hfr
    · subst hfg
      simp only [getChangeTimeAux, hm]
      have h1 : m ≤ (if acc < m then m else acc) := by split <;> omega
      exact le_trans h1 (getChangeTimeAux_ge fs _ rest)
    · cases hg : fs g with
      | none =>
        simp only [getChangeTimeAux, hg]
        exact ih _ hfr
      | some m' =>
        simp only [getChangeTimeAux, hg]
        exact ih _ hfr

theorem getChangeTimeAux_all_none (fs : String → Option Nat) (acc : Nat)
    (fns : List String) (h : ∀ f, f ∈ fns → fs f = none) :
    getChangeTimeAux fs acc fns = acc := by
  induction fns with
  | nil => rfl
  | cons f rest ih =>
    simp only [getChangeTimeAux, h f (List.mem_cons_self f rest)]
    exact ih fun g hg => h g (List.mem_cons_of_mem f hg)

theorem getChangeTimeAux_attained (fs : String → Option Nat) (acc : Nat)
    (fns : List String) :
    getChangeTimeAux fs acc fns = acc ∨
      ∃ f, f ∈ fns ∧ fs f = some (getChangeTimeAux fs acc fns) := by
  induction fns generalizing acc with
  | nil => exact Or.inl rfl
  | cons f rest ih =>
    cases hf : fs f with
    | none =>
      simp only [getChangeTimeAux, hf]
      rcases ih acc with h | ⟨g, hg, hgm⟩
      · exact Or.inl h
      · exact Or.inr ⟨g, List.mem_cons_of_mem f hg, hgm⟩
    | some m =>
      simp only [getChangeTimeAux, hf]
      rcases ih (if acc < m then m else acc) with h | ⟨g, hg, hgm⟩
      · rw [h]
        by_cases hlt : acc < m
        · exact Or.inr ⟨f, List.mem_cons_self f rest, by rw [hf, if_pos hlt]⟩
        · exact Or.inl (by rw [if_neg hlt])
      · exact Or.inr ⟨g, List.mem_cons_of_mem f hg, hgm⟩

theorem getChangeTime_le (fs : String → Option Nat) (t : Nat)
    (fns : List String) (h : ∀ f m, fs f = some m → m ≤ t) :
    getChangeTime fs fns ≤ t :=
  getChangeTimeAux_le fs t 0 fns (Nat.zero_le t) fun f _ m hm => h f m hm

theorem cacheFind_cacheSet_self (c : Cache) (k : GoKey) (w : Watched) :
    cacheFind (cacheSet c k w) k = some w := by
  induction c with
  | nil => simp [cacheSet, cacheFind]
  | cons p rest ih =>
    by_cases hp : p.1 = k
    · simp [cacheSet, hp, cacheFind]
    · simp [cacheSet, hp, cacheFind, ih]

theorem cacheFind_cacheSet_ne (c : Cache) (k k' : GoKey) (w : Watched)
    (h : k ≠ k') : cacheFind (cacheSet c k w) k' = cacheFind c k' := by
  induction c with
  | nil => simp [cacheSet, cacheFind, h]
  | cons p rest ih =>
    by_cases hp : p.1 = k
    · simp [cacheSet, hp, cacheFind, h]
    · simp [cacheSet, hp, cacheFind, ih]

theorem lookupTmpl_addTree (b : Bundle) (n : String) (t : Tree) (x : String) :
    lookupTmpl (addTree b n t) x = if n = x then some t else lookupTmpl b x := by
  induction b with
  | nil => simp [addTree, lookupTmpl]
  | cons p rest ih =>
    by_cases hmn : p.1 = n
    · subst hmn
      by_cases hx : p.1 = x <;> simp [addTree, lookupTmpl, hx]
    · by_cases hx : p.1 = x
      · subst hx
        have : ¬ n = p.1 := fun hc => hmn hc.symm
        simp [addTree, hmn, lookupTmpl, this]
      · simp [addTree, hmn, lookupTmpl, hx, ih]

theorem lookupTmpl_not_mem (b : Bundle) (n : String)
    (h : n ∉ b.map Prod.fst) : lookupTmpl b n = none := by
  induction b with
  | nil => rfl
  | cons p rest ih =>
    simp only [List.map_cons, List.mem_cons] at h
    push_neg at h
    have hp : ¬ p.1 = n := fun hc => h.1 hc.symm
    simp [lookupTmpl, hp, ih h.2]

theorem memRead_memWrite_ne (st : List (Nat × Bundle)) (a a' : Nat)
    (b : Bundle) (h : a' ≠ a) : memRead (memWrite st a' b) a = memRead st a := by
  induction st with
  | nil => simp [memWrite, memRead, h]
  | cons p rest ih =>
    by_cases hp : p.1 = a'
    · simp [memWrite, hp, memRead, h]
    · simp [memWrite, hp, memRead, ih]

theorem parseBaseFilesM_now_le (e : Env) (s : St) (fns : List String) :
    s.now ≤ (parseBaseFilesM e s fns).2.now := by
  by_cases hfns : fns = []
  · simp [parseBaseFilesM, hfns]
  · cases hp : e.parse fns with
    | none => simp [parseBaseFilesM, hfns, hp]
    | some t => simp [parseBaseFilesM, hfns, hp, St.adv]

theorem parseBaseFilesM_ok_now (e : Env) (s : St) (fns : List String)
    (w : Watched) (s1 : St) (h : parseBaseFilesM e s fns = (Except.ok w, s1)) :
    s.now < s1.now := by
  by_cases hfns : fns = []
  · simp [parseBaseFilesM, hfns] at h
  · cases hp : e.parse fns with
    | none => simp [parseBaseFilesM, hfns, hp] at h
    | some t =>
      simp only [parseBaseFilesM, if_neg hfns, hp, Prod.mk.injEq] at h
      rw [← h.2]
      simp [St.adv]

theorem getBaseTask_now_le (e : Env) (s : St) :
    s.now ≤ (getBaseTask e s).2.now := by
  cases hc : cacheFind s.cache baseKey with
  | none => simp [getBaseTask, hc]
  | some w =>
    by_cases hst : w.cached < getChangeTime e.fs w.filenames
    · rcases hpb : parseBaseFilesM e s w.filenames with ⟨r, s1⟩
      have hle : s.now ≤ s1.now := by
        have h2 := parseBaseFilesM_now_le e s w.filenames
        rw [hpb] at h2
        exact h2
      cases r with
      | error er =>
        simp only [getBaseTask, hc, hst, if_true, hpb]
        exact hle
      | ok w2 =>
        simp only [getBaseTask, hc, hst, if_true, hpb]
        exact hle
    · simp [getBaseTask, hc, hst]

theorem parseFilesM_ok_now (e : Env) (s : St) (fns : List String)
    (w : Watched) (s1 : St) (h : parseFilesM e s fns = (Except.ok w, s1)) :
    s.now < s1.now := by
  by_cases hfns : fns = []
  · simp [parseFilesM, hfns] at h
  · cases hp : e.parse fns with
    | none => simp [parseFilesM, hfns, hp] at h
    | some t =>
      have hbase := getBaseTask_now_le e s
      rcases hgb : getBaseTask e s with ⟨ob, s2⟩
      rw [hgb] at hbase
      replace hbase : s.now ≤ s2.now := hbase
      cases ob with
      | none =>
        simp only [parseFilesM, if_neg hfns, hp, hgb, Prod.mk.injEq] at h
        rw [← h.2]
        simp only [St.adv]
        omega
      | some b =>
        simp only [parseFilesM, if_neg hfns, hp, hgb, Prod.mk.injEq] at h
        rw [← h.2]
        simp only [St.adv]
        omega

/-! Claim theorems. -/

/-- Claim C1: for a key present in the Store, the lookup task reparses
exactly when the entry's `cachedAt` is before the latest modification of
its own files or — for a non-base key only, the comparison being skipped
when the key is the reserved base key — before `getBaseChangeTime`;
equivalently, the task replies with the cached bundle and leaves the
state untouched precisely when that staleness condition fails. -/
theorem getTask_reparse_iff (e : Env) (s : St) (k : GoKey) (w : Watched)
    (h : cacheFind s.cache k = some w) :
    getTask e s k = (some w.tmpl, s) ↔
      ¬ (w.cached < getChangeTime e.fs w.filenames ∨
          (k ≠ baseKey ∧ w.cached < getBaseChangeTime e.fs s.cache)) := by
  have hunfold : getTask e s k =
      (if stale e s k w then
        match (if k = baseKey then parseBaseFilesM e s w.filenames
               else parseFilesM e s w.filenames) with
        | (Except.error _, s1) => (none, s1)
        | (Except.ok w2, s1) => (some w2.tmpl, ⟨cacheSet s1.cache k w2, s1.now⟩)
      else (some w.tmpl, s)) := by
    simp only [getTask, h]
  constructor
  · intro hg hst
    rw [hunfold, if_pos hst] at hg
    rcases hcall : (if k = baseKey then parseBaseFilesM e s w.filenames
        else parseFilesM e s w.filenames) with ⟨r, s1⟩
    rw [hcall] at hg
    cases r with
    | error er => simp at hg
    | ok w2 =>
      have hlt : s.now < s1.now := by
        by_cases hk : k = baseKey
        · rw [if_pos hk] at hcall
          exact parseBaseFilesM_ok_now e s w.filenames w2 s1 hcall
        · rw [if_neg hk] at hcall
          exact parseFilesM_ok_now e s w.filenames w2 s1 hcall
      simp only [Prod.mk.injEq] at hg
      have hnow := congrArg St.now hg.2
      simp only at hnow
      omega
  · intro hst
    rw [hunfold, if_neg hst]

/-- Witness for C1: under `envW` nothing is stale for `sFresh`, so the
lookup serves the cached bundle unchanged. -/
theorem getTask_reparse_iff_witness :
    getTask envW sFresh (GoKey.ofInt 1) = (some wFresh.tmpl, sFresh) :=
  (getTask_reparse_iff envW sFresh (GoKey.ofInt 1) wFresh (by decide)).mpr
    (by decide)

/-- Claim C3: `getChangeTime` computes the maximum filesystem modification
time over the readable identifiers — every readable identifier's time is
bounded by the result and the result is attained by a readable identifier
unless it is zero — skipping each unreadable identifier non-fatally, and
returns the zero timestamp when the list is empty or every identifier is
unreadable. -/
theorem getChangeTime_latest (fs : String → Option Nat) (fns : List String) :
    (∀ f, f ∈ fns → ∀ m, fs f = some m → m ≤ getChangeTime fs fns) ∧
    ((∀ f, f ∈ fns → fs f = none) → getChangeTime fs fns = 0) ∧
    (getChangeTime fs fns = 0 ∨
      ∃ f, f ∈ fns ∧ fs f = some (getChangeTime fs fns)) :=
  ⟨fun f hf m hm => getChangeTimeAux_mem_le fs 0 fns f m hf hm,
    fun h => getChangeTimeAux_all_none fs 0 fns h,
    getChangeTimeAux_attained fs 0 fns⟩

/-- Witness for C3: in a filesystem where only `"a"` is readable (time 7),
the change time over `["a", "zz"]` dominates 7. -/
theorem getChangeTime_latest_witness :
    (7 : Nat) ≤ getChangeTime fsAB ["a", "zz"] :=
  (getChangeTime_latest fsAB ["a", "zz"]).1 "a" (by decide) 7 (by decide)

/-- Claim C2 counterexample: when the base entry's `cachedAt` equals its
files' latest modification time (both 5), `getBaseChangeTime` returns 5,
not the claimed `max(latestModification, cachedAt + 1ns) = 6` — the code
nudges only on a strict `After`. -/
theorem getBaseChangeTime_claim_counterexample :
    cacheFind cEq baseKey = some wEq ∧
    getChangeTime fsFive wEq.filenames = 5 ∧
    wEq.cached = 5 ∧
    getBaseChangeTime fsFive cEq = 5 ∧
    getBaseChangeTime fsFive cEq ≠
      max (getChangeTime fsFive wEq.filenames) (wEq.cached + 1) := by
  refine ⟨by decide, by decide, by decide, by decide, by decide⟩

/-- Claim C2 (amended): `getBaseChangeTime` returns the zero timestamp
when no base entry exists; otherwise it returns
`max(latestModification(base files), cachedAt + 1ns)` whenever `cachedAt`
differs from the latest modification time, and returns the common value
itself (no `+1ns` nudge) when the two are equal. -/
theorem getBaseChangeTime_amended (fs : String → Option Nat) (c : Cache) :
    (cacheFind c baseKey = none → getBaseChangeTime fs c = 0) ∧
    (∀ w, cacheFind c baseKey = some w →
      (w.cached = getChangeTime fs w.filenames →
        getBaseChangeTime fs c = w.cached) ∧
      (w.cached ≠ getChangeTime fs w.filenames →
        getBaseChangeTime fs c =
          max (getChangeTime fs w.filenames) (w.cached + 1))) := by
  constructor
  · intro h
    simp [getBaseChangeTime, h]
  · intro w hw
    constructor
    · intro he
      simp [getBaseChangeTime, hw, ← he]
    · intro hne
      simp only [getBaseChangeTime, hw]
      rw [Nat.max_def]
      split <;> split <;> omega

/-- Witness for the amended C2: base cached at 7, files modified at 5, so
the result is `max(5, 8) = 8`. -/
theorem getBaseChangeTime_amended_witness :
    getBaseChangeTime fsFive cGt =
      max (getChangeTime fsFive wGt.filenames) (wGt.cached + 1) :=
  ((getBaseChangeTime_amended fsFive cGt).2 wGt (by decide)).2 (by decide)

/-- Claim C4: merging a dependent bundle into a base bundle resolves each
name to the dependent's definition when the dependent defines it
(last-added-wins, base added first then dependent) and to the base's
definition otherwise, so every named sub-template of either input is
present in the result; the merge builds a new value from a clone of the
base, which is itself unchanged. -/
theorem mergeTemplate_override (base dep : Bundle)
    (h : (dep.map Prod.fst).Nodup) (n : String) :
    lookupTmpl (mergeTemplate base dep) n =
      (lookupTmpl dep n).or (lookupTmpl base n) := by
  induction dep generalizing base with
  | nil => simp [mergeTemplate, lookupTmpl, Option.or]
  | cons p rest ih =>
    obtain ⟨m, t⟩ := p
    simp only [List.map_cons, List.nodup_cons] at h
    have hmerge : mergeTemplate base ((m, t) :: rest) =
        mergeTemplate (addTree base m t) rest := rfl
    rw [hmerge, ih _ h.2]
    by_cases hmn : m = n
    · subst hmn
      have hrest : lookupTmpl rest m = none := lookupTmpl_not_mem rest m h.1
      simp [lookupTmpl, hrest, lookupTmpl_addTree, Option.or]
    · simp [lookupTmpl, hmn, lookupTmpl_addTree]

/-- Witness for C4: a name defined in both inputs resolves to the
dependent's definition. -/
theorem mergeTemplate_override_witness :
    lookupTmpl (mergeTemplate [("a", "A"), ("n", "X")] [("n", "D")]) "n" =
      (lookupTmpl [("n", "D")] "n").or (lookupTmpl [("a", "A"), ("n", "X")] "n") :=
  mergeTemplate_override [("a", "A"), ("n", "X")] [("n", "D")] (by decide) "n"

/-- Claim C6: `Get` returns a caller-owned copy of the cached bundle: the
clone lives at a fresh address distinct from the cached template's
address, so any caller mutation through the returned handle leaves the
cached template unchanged, and subsequent lookups still see the original
value. -/
theorem Get_copy_isolation (h : Heap) (ta : Nat) (b : Bundle)
    (hta : ta < h.next) (hb : memRead h.store ta = some b) :
    ∃ na h2, GetClone h ta = some (na, h2) ∧ na ≠ ta ∧
      memRead h2.store ta = some b ∧
      ∀ b', memRead (memWrite h2.store na b') ta = some b := by
  refine ⟨h.next, ⟨(h.next, b) :: h.store, h.next + 1⟩, ?_, ?_, ?_, ?_⟩
  · simp [GetClone, hb]
  · omega
  · have hne : ¬ (h.next = ta) := by omega
    simp [memRead, hne, hb]
  · intro b'
    have hne : h.next ≠ ta := by omega
    rw [memRead_memWrite_ne _ _ _ _ hne]
    have hne2 : ¬ (h.next = ta) := hne
    simp [memRead, hne2, hb]

/-- Witness for C6 on a one-object heap. -/
theorem Get_copy_isolation_witness :
    ∃ na h2, GetClone ⟨[(0, [("t", "T")])], 1⟩ 0 = some (na, h2) ∧ na ≠ 0 ∧
      memRead h2.store 0 = some [("t", "T")] ∧
      ∀ b', memRead (memWrite h2.store na b') 0 = some [("t", "T")] :=
  Get_copy_isolation ⟨[(0, [("t", "T")])], 1⟩ 0 [("t", "T")] (by decide) (by decide)

/-- Claim C8: registering a glob pattern that expands to zero files fails
with `NoMatchError` and leaves the whole state untouched — nothing is
parsed, no Set is submitted, and a later `Get` for the key behaves
exactly as if the call had never happened. -/
theorem registerGlob_noMatch (e : Env) (s : St) (k : GoKey) (p : String)
    (h : e.glob p = some []) :
    registerGlobM e s k p = (Except.error WErr.noMatch, s) ∧
    GetM e (registerGlobM e s k p).2 k = GetM e s k := by
  have h1 : registerGlobM e s k p = (Except.error WErr.noMatch, s) := by
    simp [registerGlobM, parseGlobM, h]
  exact ⟨h1, by rw [h1]⟩

/-- Witness for C8: under `envW` the pattern `"*.none"` matches nothing. -/
theorem registerGlob_noMatch_witness :
    registerGlobM envW sFresh (GoKey.ofInt 1) "*.none" =
      (Except.error WErr.noMatch, sFresh) :=
  (registerGlob_noMatch envW sFresh (GoKey.ofInt 1) "*.none" (by decide)).1

/-- Claim C9 (the spec's no-panic rule, which the code violates):
`RegisterFiles` with an empty filenames list reaches the unguarded
`filenames[0]` index in `parseFiles` and aborts with a runtime panic
(`crashed`) instead of returning an error value. -/
theorem registerFiles_empty_crashes (e : Env) (s : St) (k : GoKey) :
    (registerFilesM e s k []).1 = Except.error WErr.crashed := rfl

/-- Claim C7: `Get(key)` fails with `NotFoundError` exactly when the key
is absent from the Store (never registered — entries are never deleted)
or the reparse triggered by this lookup failed; a reparse failure is
logged and downgraded, so no typed parse or merge error ever reaches the
caller, and the previously cached stale entry remains in the Store
untouched. -/
theorem GetM_notFound_characterization (e : Env) (s : St) (k : GoKey)
    (hne : ∀ w, cacheFind s.cache k = some w → w.filenames ≠ []) :
    ((GetM e s k).1 = Except.error WErr.notFound ↔
      cacheFind s.cache k = none ∨
      ∃ w, cacheFind s.cache k = some w ∧
        (w.cached < getChangeTime e.fs w.filenames ∨
          (k ≠ baseKey ∧ w.cached < getBaseChangeTime e.fs s.cache)) ∧
        e.parse w.filenames = none) ∧
    (∀ er, (GetM e s k).1 = Except.error er → er = WErr.notFound) ∧
    (∀ w, cacheFind s.cache k = some w → e.parse w.filenames = none →
      ((GetM e s k).2).cache = s.cache) := by
  cases hc : cacheFind s.cache k with
  | none =>
    have hg : GetM e s k = (Except.error WErr.notFound, s) := by
      simp [GetM, getTask, hc]
    refine ⟨?_, ?_, ?_⟩
    · rw [hg]
      exact ⟨fun _ => Or.inl rfl, fun _ => rfl⟩
    · intro er her
      rw [hg] at her
      injection her with h
      exact h.symm
    · intro w hw
      cases hw
  | some w =>
    have hfns : w.filenames ≠ [] := hne w hc
    by_cases hst : stale e s k w
    · cases hp : e.parse w.filenames with
      | none =>
        have hcall : (if k = baseKey then parseBaseFilesM e s w.filenames
            else parseFilesM e s w.filenames) =
            (Except.error WErr.engineErr, s) := by
          by_cases hk : k = baseKey <;>
            simp [hk, parseBaseFilesM, parseFilesM, hfns, hp]
        have hg : GetM e s k = (Except.error WErr.notFound, s) := by
          simp [GetM, getTask, hc, hst, hcall]
        refine ⟨?_, ?_, ?_⟩
        · rw [hg]
          exact ⟨fun _ => Or.inr ⟨w, rfl, hst, hp⟩, fun _ => rfl⟩
        · intro er her
          rw [hg] at her
          injection her with h2
          exact h2.symm
        · intro w' hw' hp'
          rw [hg]
      | some t =>
        have hok : ∀ er, (GetM e s k).1 ≠ Except.error er := by
          intro er her
          by_cases hk : k = baseKey
          · subst hk
            simp [GetM, getTask, hc, hst, parseBaseFilesM, hfns, hp] at her
          · rcases hgb : getBaseTask e s with ⟨ob, s1⟩
            cases ob with
            | none =>
              simp [GetM, getTask, hc, hst, hk, parseFilesM, hfns, hp, hgb]
                at her
            | some b =>
              simp [GetM, getTask, hc, hst, hk, parseFilesM, hfns, hp, hgb]
                at her
        refine ⟨?_, ?_, ?_⟩
        · constructor
          · intro h
            exact (hok WErr.notFound h).elim
          · intro h
            rcases h with h1 | ⟨w', hw', hst', hp'⟩
            · cases h1
            · have hww : w = w' := Option.some.inj hw'
              rw [← hww, hp] at hp'
              cases hp'
        · intro er her
          exact (hok er her).elim
        · intro w' hw' hp'
          have hww : w = w' := Option.some.inj hw'
          rw [← hww, hp] at hp'
          cases hp'
    · have hg : GetM e s k = (Except.ok w.tmpl, s) := by
        simp [GetM, getTask, hc, hst]
      refine ⟨?_, ?_, ?_⟩
      · constructor
        · intro h
          rw [hg] at h
          cases h
        · intro h
          rcases h with h1 | ⟨w', hw', hst', hp'⟩
          · cases h1
          · have hww : w = w' := Option.some.inj hw'
            rw [← hww] at hst'
            exact (hst hst').elim
      · intro er her
        rw [hg] at her
        cases her
      · intro w' hw' hp'
        rw [hg]

/-- Witness for C7: under `envBroken` the entry for `ofInt 2` is stale and
its reparse fails, so `Get` reports not-found while the stale entry stays
in the cache. -/
theorem GetM_notFound_witness :
    (GetM envBroken sStale (GoKey.ofInt 2)).1 = Except.error WErr.notFound ∧
    ((GetM envBroken sStale (GoKey.ofInt 2)).2).cache = sStale.cache := by
  have hne : ∀ w, cacheFind sStale.cache (GoKey.ofInt 2) = some w →
      w.filenames ≠ [] := by
    intro w hw
    have h0 : cacheFind sStale.cache (GoKey.ofInt 2) = some wStale := by decide
    rw [h0] at hw
    rw [← Option.some.inj hw]
    decide
  have h := GetM_notFound_characterization envBroken sStale (GoKey.ofInt 2) hne
  exact ⟨h.1.mpr (Or.inr ⟨wStale, by decide, by decide, rfl⟩),
    h.2.2 wStale (by decide) rfl⟩

/-- Claim C10: a caller-supplied key can never collide with the reserved
base slot: keys compare by dynamic type as well as value and `cacheKey`
is package-private, so every externally constructible key — including the
`int` key `0` — differs from `baseKey`; hence a Set under such a key
leaves the base entry unchanged, and a lookup of such a key is unaffected
by what sits in the base slot. -/
theorem external_key_never_base (k : GoKey) (h : k.external = true) :
    k ≠ baseKey ∧
    (∀ c w, cacheFind (cacheSet c k w) baseKey = cacheFind c baseKey) ∧
    (∀ c w, cacheFind (cacheSet c baseKey w) k = cacheFind c k) := by
  have hk : k ≠ baseKey := by
    cases k with
    | cacheKey n => simp [GoKey.external] at h
    | ofInt n => simp [baseKey]
    | ofString v => simp [baseKey]
    | testKey n => simp [baseKey]
  exact ⟨hk, fun c w => cacheFind_cacheSet_ne c k baseKey w hk,
    fun c w => cacheFind_cacheSet_ne c baseKey k w (Ne.symm hk)⟩

/-- Witness for C10: the external `int` key `0` does not touch the base
entry stored under `cacheKey 0`. -/
theorem external_key_never_base_witness :
    GoKey.ofInt 0 ≠ baseKey ∧
    cacheFind (cacheSet cEq (GoKey.ofInt 0) wGt) baseKey = some wEq := by
  have h := external_key_never_base (GoKey.ofInt 0) rfl
  exact ⟨h.1, by rw [h.2.1 cEq wGt]; decide⟩

/-- Claim C5: registration order is commutative.  Registering the base
files `B` and then a dependent key `k` with files `D`, or the dependent
first and the base afterwards, yields the same bundle from a subsequent
`Get(k)` — in the second order the base-change nudge makes the
dependent's lookup stale, forcing a reparse that merges with the base.
Hypotheses: both parses succeed, both file lists are non-empty, `k` is
not the reserved base key, and no watched file is modified after the
initial instant `t0`. -/
theorem register_comm (e : Env) (t0 : Nat) (k : GoKey) (B D : List String)
    (bB bD : Bundle) (hk : k ≠ baseKey) (hBne : B ≠ []) (hDne : D ≠ [])
    (hB : e.parse B = some bB) (hD : e.parse D = some bD)
    (hfs : ∀ f m, e.fs f = some m → m ≤ t0) :
    (GetM e (registerFilesM e (registerBaseFilesM e ⟨[], t0⟩ B).2 k D).2 k).1
      = Except.ok (mergeTemplate bB bD) ∧
    (GetM e (registerBaseFilesM e (registerFilesM e ⟨[], t0⟩ k D).2 B).2 k).1
      = Except.ok (mergeTemplate bB bD) := by
  have hcB : getChangeTime e.fs B ≤ t0 := getChangeTime_le e.fs t0 B hfs
  have hcD : getChangeTime e.fs D ≤ t0 := getChangeTime_le e.fs t0 D hfs
  have hbk : baseKey ≠ k := Ne.symm hk
  constructor
  · -- Order 1: base first, then the dependent.
    have e1 : registerBaseFilesM e ⟨[], t0⟩ B =
        (Except.ok (), ⟨[(baseKey, ⟨B, bB, t0⟩)], t0 + 1⟩) := by
      simp [registerBaseFilesM, parseBaseFilesM, hBne, hB, St.adv, cacheSet]
    have hbase1 : getBaseTask e ⟨[(baseKey, ⟨B, bB, t0⟩)], t0 + 1⟩ =
        (some bB, ⟨[(baseKey, ⟨B, bB, t0⟩)], t0 + 1⟩) := by
      simp [getBaseTask, cacheFind, Nat.not_lt.mpr hcB]
    have e2 : registerFilesM e ⟨[(baseKey, ⟨B, bB, t0⟩)], t0 + 1⟩ k D =
        (Except.ok (), ⟨[(baseKey, ⟨B, bB, t0⟩),
          (k, ⟨D, mergeTemplate bB bD, t0 + 1⟩)], t0 + 2⟩) := by
      simp [registerFilesM, parseFilesM, hDne, hD, hbase1, St.adv, cacheSet,
        hbk]
    have hfindB1 : cacheFind
        [(baseKey, ⟨B, bB, t0⟩), (k, ⟨D, mergeTemplate bB bD, t0 + 1⟩)]
        baseKey = some ⟨B, bB, t0⟩ := by
      simp [cacheFind]
    have hbct1 : getBaseChangeTime e.fs
        [(baseKey, ⟨B, bB, t0⟩), (k, ⟨D, mergeTemplate bB bD, t0 + 1⟩)]
        ≤ t0 + 1 := by
      simp only [getBaseChangeTime]
      rw [hfindB1]
      dsimp only
      by_cases hlt : getChangeTime e.fs B < t0
      · rw [if_pos hlt]
      · rw [if_neg hlt]
        omega
    have hnstale : ¬ stale e
        ⟨[(baseKey, ⟨B, bB, t0⟩), (k, ⟨D, mergeTemplate bB bD, t0 + 1⟩)],
          t0 + 2⟩ k ⟨D, mergeTemplate bB bD, t0 + 1⟩ := by
      rintro (h1 | ⟨-, h2⟩)
      · exact absurd h1 (Nat.not_lt.mpr (le_trans hcD (Nat.le_succ t0)))
      · exact absurd h2 (Nat.not_lt.mpr hbct1)
    rw [e1]
    dsimp only
    rw [e2]
    dsimp only
    simp [GetM, getTask, cacheFind, hbk, hnstale]
  · -- Order 2: the dependent first, then the base.
    have hbase0 : getBaseTask e ⟨[], t0⟩ = (none, ⟨[], t0⟩) := by
      simp [getBaseTask, cacheFind]
    have f1 : registerFilesM e ⟨[], t0⟩ k D =
        (Except.ok (), ⟨[(k, ⟨D, bD, t0⟩)], t0 + 1⟩) := by
      simp [registerFilesM, parseFilesM, hDne, hD, hbase0, St.adv, cacheSet]
    have f2 : registerBaseFilesM e ⟨[(k, ⟨D, bD, t0⟩)], t0 + 1⟩ B =
        (Except.ok (), ⟨[(k, ⟨D, bD, t0⟩), (baseKey, ⟨B, bB, t0 + 1⟩)],
          t0 + 2⟩) := by
      simp [registerBaseFilesM, parseBaseFilesM, hBne, hB, St.adv, cacheSet,
        hk]
    have hbcfind : cacheFind
        [(k, ⟨D, bD, t0⟩), (baseKey, ⟨B, bB, t0 + 1⟩)] baseKey =
        some ⟨B, bB, t0 + 1⟩ := by
      simp [cacheFind, hk]
    have hbct2 : getBaseChangeTime e.fs
        [(k, ⟨D, bD, t0⟩), (baseKey, ⟨B, bB, t0 + 1⟩)] = t0 + 2 := by
      simp only [getBaseChangeTime]
      rw [hbcfind]
      dsimp only
      rw [if_pos (by omega)]
    have hstale2 : stale e
        ⟨[(k, ⟨D, bD, t0⟩), (baseKey, ⟨B, bB, t0 + 1⟩)], t0 + 2⟩ k
        ⟨D, bD, t0⟩ := by
      refine Or.inr ⟨hk, ?_⟩
      dsimp only
      rw [hbct2]
      omega
    have hbase2 : getBaseTask e
        ⟨[(k, ⟨D, bD, t0⟩), (baseKey, ⟨B, bB, t0 + 1⟩)], t0 + 2⟩ =
        (some bB,
          ⟨[(k, ⟨D, bD, t0⟩), (baseKey, ⟨B, bB, t0 + 1⟩)], t0 + 2⟩) := by
      simp only [getBaseTask]
      rw [hbcfind]
      dsimp only
      rw [if_neg (by omega)]
    have hparse2 : parseFilesM e
        ⟨[(k, ⟨D, bD, t0⟩), (baseKey, ⟨B, bB, t0 + 1⟩)], t0 + 2⟩ D =
        (Except.ok ⟨D, mergeTemplate bB bD, t0 + 2⟩,
          ⟨[(k, ⟨D, bD, t0⟩), (baseKey, ⟨B, bB, t0 + 1⟩)], t0 + 3⟩) := by
      simp [parseFilesM, hDne, hD, hbase2, St.adv]
    rw [f1]
    dsimp only
    rw [f2]
    dsimp only
    simp [GetM, getTask, cacheFind, hstale2, hk, hparse2]

/-- Witness for C5: a concrete two-file scenario under `envW`, first
order (base then dependent). -/
theorem register_comm_witness :
    (GetM envW (registerFilesM envW
        (registerBaseFilesM envW ⟨[], 0⟩ ["b.html"]).2
        (GoKey.ofInt 1) ["d.html"]).2 (GoKey.ofInt 1)).1
      = Except.ok (mergeTemplate [("b.html", "B")] [("d.html", "D")]) :=
  (register_comm envW 0 (GoKey.ofInt 1) ["b.html"] ["d.html"]
    [("b.html", "B")] [("d.html", "D")] (by decide) (by decide) (by decide)
    (by decide) (by decide)
    (fun f m hm => Nat.le_of_eq (Option.some.inj hm).symm)).1

end Watcher
